import Mathlib

/-!
Verification development for the DrTorch hyperparameter-search harness
(`src/DrTorch/model_selection.py` and `src/DrTorch/wrappers.py`).

The Python code is shallowly embedded: Python dicts become association lists
over `String` keys (Python dict keys here are always strings and keys are
unique, insertion order preserved), fallible operations return
`Except PyErr`, and the external deep-learning collaborators (dataloader
builder, model construction, `net.fit`, the wall clock, `wandb`) are injected
as total functions, since the harness treats them as opaque.  The `wandb`
branch only prints warnings and logs — it never touches the result table —
so it is omitted from the embedding.
-/

set_option autoImplicit false

namespace DrTorch

/-- The Python exception kinds the harness's own code can raise. -/
inductive PyErr where
  | keyError
  | typeError
  | valueError
  | runtimeError
deriving DecidableEq, Repr

/-- A Python dict with string keys: an association list in insertion order
with unique keys (every dict the harness builds has unique keys). -/
abbrev PyDict (α : Type) := List (String × α)

/-- First-match lookup, `d[k]` / `k in d`.  On dicts with unique keys this is
exactly Python's dict lookup. -/
def pyLookup {α : Type} : PyDict α → String → Option α
  | [], _ => none
  | p :: rest, k => if p.1 = k then some p.2 else pyLookup rest k

/-- `d[k]` as an expression: raises `KeyError` when the key is absent
(also the behaviour of `d.pop(k)` with no default). -/
def pyGet {α : Type} (d : PyDict α) (k : String) : Except PyErr α :=
  match pyLookup d k with
  | some v => Except.ok v
  | none => Except.error PyErr.keyError

/-- `d[k] = v`: replaces the value of an existing key in place, otherwise
appends the new key at the end (Python dicts preserve insertion order). -/
def dset {α : Type} (d : PyDict α) (k : String) (v : α) : PyDict α :=
  match pyLookup d k with
  | some _ => d.map (fun p => if p.1 = k then (p.1, v) else p)
  | none => d ++ [(k, v)]

/-- `{**a, **b}` (line 234 of model_selection.py): keys of `a` in order, then
the new keys of `b`, values of `b` winning. -/
def dmerge {α : Type} (a b : PyDict α) : PyDict α :=
  b.foldl (fun d p => dset d p.1 p.2) a

/-
`wrappers.py`
-/

/-- `Criterion` (wrappers.py lines 44-104): name, loss callable, and the
optional reduction callable stored by `AbstractCriterion.__init__`. -/
structure Criterion (α β γ : Type) where
  name : String
  loss_function : α → β → γ
  reduction_function : Option (γ → γ)

/-- `Criterion.__call__` (lines 88-104): `output = self.loss_function(
predicted_labels, target_labels); return output`.  The stored
`reduction_function` is not consulted. -/
def Criterion.call {α β γ : Type} (c : Criterion α β γ)
    (predicted_labels : α) (target_labels : β) : γ :=
  c.loss_function predicted_labels target_labels

/-- A concrete elementwise loss used as a test input: squared error on
integer vectors (a loss "instantiated without a reduction", as the class
docstring asks). -/
def sqErrLoss (p t : List Int) : List Int :=
  List.zipWith (fun a b => (a - b) * (a - b)) p t

/-- A concrete reduction callable: sum the loss vector. -/
def sumReduce (l : List Int) : List Int := [l.sum]

/-- A `Criterion` built with `sqErrLoss` and reduction `sumReduce`, mirroring
the class docstring's example of a `reduction='none'` loss plus a reduction
callable. -/
def exCriterion : Criterion (List Int) (List Int) (List Int) :=
  { name := "loss", loss_function := sqErrLoss, reduction_function := some sumReduce }

/-- `MultyHeadCriterion` (wrappers.py lines 107-136).  The per-head loss
callables of type `F` are opaque; `loss_weights` are the ints of the
constructor signature. -/
structure MultyHeadCriterion (F : Type) where
  name : String
  loss_functions : PyDict F
  loss_weights : List Int
  reduction_function : Option (F → F)

/-- Python iteration over a dict yields its keys, so the loop header
`for head_key, current_head_loss in self.loss_functions` (line 133) unpacks
each key string: a string of length 2 unpacks into its two characters (each a
one-character string), any other length raises `ValueError`. -/
def strUnpack2 (s : String) : Except PyErr (String × String) :=
  match s.data with
  | [c1, c2] => Except.ok (String.mk [c1], String.mk [c2])
  | _ => Except.error PyErr.valueError

/-- One iteration of the loop body (line 134): unpack the key, evaluate the
indexings `predicted_labels[head_key]` and `target_labels[head_key]`
(injected, may themselves raise), then call `current_head_loss` — which is a
one-character string obtained from the unpacking, and calling a `str` raises
`TypeError`. -/
def mhLoopBody {τ ρ : Type} (predIdx targIdx : String → Except PyErr τ)
    (key : String) : Except PyErr ρ := do
  let kv ← strUnpack2 key
  let _ ← predIdx kv.1
  let _ ← targIdx kv.1
  Except.error PyErr.typeError

/-- The whole `for` loop over the dict's keys, accumulating `losses`. -/
def mhLoop {τ ρ : Type} (predIdx targIdx : String → Except PyErr τ) :
    List String → Except PyErr (List ρ)
  | [] => Except.ok []
  | key :: rest => do
    let l ← mhLoopBody predIdx targIdx key
    let ls ← mhLoop predIdx targIdx rest
    Except.ok (l :: ls)

/-- `torch.stack` raises `RuntimeError` on an empty list of tensors. -/
def torchStack {ρ : Type} (l : List ρ) : Except PyErr (List ρ) :=
  if l.isEmpty then Except.error PyErr.runtimeError else Except.ok l

/-- `MultyHeadCriterion.__call__` (lines 118-136): run the loop, then build
`torch.stack([... for weight, current_loss in zip(loss_weights, losses)])` —
where `loss_weights` is the *local* variable initialised to `[]` at line 132,
so the zip is empty and the stack argument is empty. -/
def MultyHeadCriterion.call {F τ ρ : Type} (c : MultyHeadCriterion F)
    (predIdx targIdx : String → Except PyErr τ) : Except PyErr (List ρ) := do
  let losses ← mhLoop predIdx targIdx (c.loss_functions.map Prod.fst)
  let stacked ← torchStack ((([] : List Int).zip losses).map Prod.snd)
  Except.ok stacked

/-- `OptimizerWrapper` (wrappers.py lines 139-200).  `N` is the type of the
iterable of model parameters, `P` the kwargs dict, `O` the built optimizer. -/
structure OptimizerWrapper (N P O : Type) where
  name : String
  optimizer_constructor : N → P → O
  optimizer_partial_params : P

/-- The quote character, used by the name derivation below. -/
def quoteChar : Char := Char.ofNat 39

/-- Name derivation of `OptimizerWrapper.__init__` (lines 173-175):
`repr(optimizer_constructor).split("'")[1].split('.')[-1]`, then the optional
identifier.  `repr` of the constructor is external, so the repr string is an
input.  (The index `[1]` would raise on a repr with no quote; that corner is
modelled as the empty string and is not used by any claim.) -/
def deriveOptimizerName (ctorRepr identifier : String) : String :=
  let base := (((ctorRepr.split (fun c => c = quoteChar)).getD 1 "").splitOn ".").getLastD ""
  if identifier ≠ "" then base ++ " " ++ identifier else base

/-- `OptimizerWrapper.__init__` (lines 160-178): the kwargs default to the
empty dict when `None` is passed. -/
def OptimizerWrapper.make {N O V : Type} (ctor : N → PyDict V → O)
    (ctorRepr identifier : String) (optimizer_partial_params : Option (PyDict V)) :
    OptimizerWrapper N (PyDict V) O :=
  { name := deriveOptimizerName ctorRepr identifier
    optimizer_constructor := ctor
    optimizer_partial_params := optimizer_partial_params.getD [] }

/-- `OptimizerWrapper.get_optimizer` (lines 190-200):
`return self.optimizer_constructor(net_params, **self.optimizer_partial_params)`. -/
def OptimizerWrapper.get_optimizer {N P O : Type} (w : OptimizerWrapper N P O)
    (net_params : N) : O :=
  w.optimizer_constructor net_params w.optimizer_partial_params

/-
`model_selection.py`
-/

/-- The combination iterator of `grid_search_train_validation` (lines 81-83):
`itertools.product(training_hyperparameters_to_test, model_hyperparameters_to_test)`,
training-major, each training entry paired with every model entry. -/
def grid_product {α β : Type} (training_hyperparameters_to_test : List α)
    (model_hyperparameters_to_test : List β) : List (α × β) :=
  training_hyperparameters_to_test.flatMap
    (fun t => model_hyperparameters_to_test.map (fun m => (t, m)))

/-- The state of the sampling `while` loop of
`randomized_search_train_validation` (lines 136-155): the two accepted lists,
the accepted count `i`, and how many samples have been drawn so far. -/
structure RSState (M T : Type) where
  accM : List M
  accT : List T
  i : Nat
  k : Nat
deriving DecidableEq, Repr

/-- One iteration of the `while i < n_run` loop, fed by the sample stream `f`
(the `k`-th joint draw of the two sampler dictionaries).  A draw is accepted —
appended to both lists, `i += 1` — unless its model dict already appears in
the accepted model list *and* its training dict already appears in the
accepted training list (lines 149-155, the `np.any` membership tests). -/
def rs_step {M T : Type} [DecidableEq M] [DecidableEq T]
    (f : Nat → M × T) (n_run : Nat) (s : RSState M T) : RSState M T :=
  if s.i < n_run then
    let mt := f s.k
    if ¬(mt.1 ∈ s.accM ∧ mt.2 ∈ s.accT) then
      { accM := s.accM ++ [mt.1], accT := s.accT ++ [mt.2], i := s.i + 1, k := s.k + 1 }
    else
      { s with k := s.k + 1 }
  else s

/-- The loop after a given number of iterations, from the empty state. -/
def rs_run {M T : Type} [DecidableEq M] [DecidableEq T]
    (f : Nat → M × T) (n_run : Nat) : Nat → RSState M T
  | 0 => { accM := [], accT := [], i := 0, k := 0 }
  | steps + 1 => rs_step f n_run (rs_run f n_run steps)

/-- The `while` loop terminates exactly when some finite number of iterations
reaches `i = n_run`. -/
def rs_terminates {M T : Type} [DecidableEq M] [DecidableEq T]
    (f : Nat → M × T) (n_run : Nat) : Prop :=
  ∃ steps, (rs_run f n_run steps).i = n_run

/-- The injected collaborators of `collect_results`, total by assumption
(claims about the harness hold for every behaviour of these): `V` is the
universe of Python objects stored in hyperparameter dicts and result columns.
`nameOf` reads the `.name` attribute (criterion and metric objects),
`metricListOf` reads a dict value as the Python list it is
(`training_hyperparameters.get('metrics', [])`), `fitTime` is the wall-clock
duration of run number `run_idx` (lines 294-300), and `fitVal run isTrain nm`
is `result['train'|'val'][nm][history_idx]` of that run (lines 302-307). -/
structure HarnessEnv (V : Type) where
  nameOf : V → String
  metricListOf : V → List V
  fitTime : Nat → V
  fitVal : Nat → Bool → String → V

/-- The column table `dataframe_dict` under construction: a dict from column
name to the list of appended cells. -/
abbrev Cols (V : Type) := PyDict (List V)

/-- `dataframe_dict[k].append(v)`, creating the column first when absent.
The creating branch is exercised only by the lazily-created metric columns
(lines 324-330, which guard with `if ... not in dataframe_dict`); every other
append site addresses a column installed by `initCols`, so the branch is
unreachable there and the Python `KeyError` of an append to a missing key
never arises. -/
def touch {V : Type} (c : Cols V) (k : String) (v : V) : Cols V :=
  match pyLookup c k with
  | some old => c.map (fun p => if p.1 = k then (p.1, old ++ [v]) else p)
  | none => c ++ [(k, [v])]

/-- Lines 206-211: `dataframe_dict` starts with one empty column per key to
save, then `'time'`, `'seed'`, and the two loss columns when
`save_loss_values`. -/
def initCols {V : Type} (hyperparameters_key_to_save : List String)
    (save_loss_values : Bool) : Cols V :=
  let d := hyperparameters_key_to_save.foldl (fun d k => dset d k []) []
  let d := dset d "time" []
  let d := dset d "seed" []
  if save_loss_values then dset (dset d "train_loss" []) "val_loss" [] else d

/-- The metric names of one combination:
`[m.name for m in training_hyperparameters.get('metrics', [])]`. -/
def metricNames {V : Type} (env : HarnessEnv V) (training_hyperparameters : PyDict V) :
    List String :=
  (((pyLookup training_hyperparameters "metrics").map env.metricListOf).getD []).map env.nameOf

/-- The sequence of column appends one combination performs, in source order:
the saved hyperparameter values once per combination (lines 311-312), then per
seed (lines 314-330) the seed, the fitting time, optionally the two losses,
and the `_train`/`_val` cell of each metric.  `keyVals` are the values
`total_hyperparameters[key]` already looked up, `run_idx` the run counter at
the start of the combination, `s` the seeds list. -/
def comboUpdates {V : Type} (env : HarnessEnv V) (run_idx : Nat)
    (critName : String) (mnames : List String) (s : List V)
    (save_loss_values : Bool) (keyVals : List (String × V)) : List (String × V) :=
  keyVals ++ s.enum.flatMap (fun is =>
    [("seed", is.2), ("time", env.fitTime (run_idx + is.1))]
    ++ (if save_loss_values then
          [("train_loss", env.fitVal (run_idx + is.1) true critName),
           ("val_loss", env.fitVal (run_idx + is.1) false critName)]
        else [])
    ++ mnames.flatMap (fun m =>
         [(m ++ "_train", env.fitVal (run_idx + is.1) true m),
          (m ++ "_val", env.fitVal (run_idx + is.1) false m)]))

/-- Running a sequence of column appends left to right. -/
def applyUpdates {V : Type} (cols : Cols V) (updates : List (String × V)) : Cols V :=
  updates.foldl (fun c kv => touch c kv.1 kv.2) cols

/-- The lookups `total_hyperparameters[key]` of the loop at lines 311-312, in
order, stopping at the first `KeyError`. -/
def pyGetEach {V : Type} (total : PyDict V) : List String → Except PyErr (List (String × V))
  | [] => Except.ok []
  | k :: rest => do
    let v ← pyGet total k
    let kvs ← pyGetEach total rest
    Except.ok ((k, v) :: kvs)

/-- The body of the combination loop of `collect_results` (lines 220-330) for
one `(training_hyperparameters, model_hyperparameters)` pair, threading the
column table and the run counter.  The harness's own fallible steps, in
source order: `training_hyperparameters['criterion']` (line 222),
`new_training_hyperparameters.pop('batch_size')` (line 257),
`new_model_hyperparameters.pop('model_class')` inside the per-seed loop
(line 285, so only when that loop runs at least once),
`total_hyperparameters[key]` for each key to save (line 312), and iterating
`seeds` at line 314 — a `TypeError` when `seeds` is `None`, since line 314
iterates the raw `seeds` argument, not the `range(1)` fallback of line 202. -/
def processCombo {V : Type} (env : HarnessEnv V)
    (hyperparameters_key_to_save : List String) (seeds : Option (List V))
    (save_loss_values : Bool) (state : Cols V × Nat)
    (combo : PyDict V × PyDict V) : Except PyErr (Cols V × Nat) := do
  let cols := state.1
  let run_idx := state.2
  let critV ← pyGet combo.1 "criterion"
  let critName := env.nameOf critV
  let _ ← pyGet combo.1 "batch_size"
  let total := dmerge combo.1 combo.2
  let nTests : Nat := match seeds with
    | some s => s.length
    | none => 1
  let _ ← if nTests == 0 then pure () else (pyGet combo.2 "model_class").map (fun _ => ())
  let keyVals ← pyGetEach total hyperparameters_key_to_save
  match seeds with
  | none => Except.error PyErr.typeError
  | some s =>
    let updates := comboUpdates env run_idx critName (metricNames env combo.1) s
      save_loss_values keyVals
    Except.ok (applyUpdates cols updates, run_idx + nTests)

/-- The column table built by `collect_results` (lines 202-330): the
combination loop folded over the iterator's `(training, model)` pairs. -/
def collect_columns {V : Type} (env : HarnessEnv V)
    (combos : List (PyDict V × PyDict V))
    (hyperparameters_key_to_save : List String) (seeds : Option (List V))
    (save_loss_values : Bool) : Except PyErr (Cols V) :=
  (combos.foldlM (processCombo env hyperparameters_key_to_save seeds save_loss_values)
    (initCols hyperparameters_key_to_save save_loss_values, 0)).map Prod.fst

/-- A built pandas DataFrame: its columns in order. -/
structure DataFrame (V : Type) where
  cols : Cols V
deriving DecidableEq

/-- All columns have the length of the first one. -/
def sameLengths {V : Type} : Cols V → Bool
  | [] => true
  | c :: rest => rest.all (fun p => p.2.length == c.2.length)

/-- `pd.DataFrame(data=dataframe_dict)` (line 332): a `ValueError` when the
column lists do not all have the same length. -/
def mkDataFrame {V : Type} (d : Cols V) : Except PyErr (DataFrame V) :=
  if sameLengths d then Except.ok { cols := d } else Except.error PyErr.valueError

/-- `collect_results` (lines 173-336): build the column table, build the
DataFrame, `joblib.dump` it to `path_to_results`, and return it.  The result
pairs the serialized object with the returned one (lines 332-336 dump and
return the very same `df`). -/
def collect_results {V : Type} (env : HarnessEnv V)
    (combos : List (PyDict V × PyDict V))
    (hyperparameters_key_to_save : List String) (seeds : Option (List V))
    (save_loss_values : Bool) : Except PyErr (DataFrame V × DataFrame V) := do
  let d ← collect_columns env combos hyperparameters_key_to_save seeds save_loss_values
  let df ← mkDataFrame d
  Except.ok (df, df)

/-- `grid_search_train_validation` (lines 46-95): builds the
`itertools.product` iterator over the two candidate lists and hands it to
`collect_results` unchanged (the `tqdm`/`enumerate` wrappers only add a
progress bar and an unused index). -/
def grid_search_train_validation {V : Type} (env : HarnessEnv V)
    (training_hyperparameters_to_test model_hyperparameters_to_test : List (PyDict V))
    (hyperparameters_key_to_save : List String) (seeds : Option (List V))
    (save_loss_values : Bool) : Except PyErr (DataFrame V × DataFrame V) :=
  collect_results env
    (grid_product training_hyperparameters_to_test model_hyperparameters_to_test)
    hyperparameters_key_to_save seeds save_loss_values

/-- The column names `collect_results` installs before the combination loop,
minus the keys to save: `'time'`, `'seed'`, and the loss columns when
`save_loss_values` (lines 207-211). -/
def specialNames (save_loss_values : Bool) : List String :=
  ["time", "seed"] ++ (if save_loss_values then ["train_loss", "val_loss"] else [])

/-- The lazily created per-metric column names, in creation order
(lines 322-330). -/
def metricColNames (mnames : List String) : List String :=
  mnames.flatMap (fun m => [m ++ "_train", m ++ "_val"])

/-
Concrete inputs used by witnesses and counterexamples.
-/

/-- A concrete collaborator environment over `V = Int`. -/
def simpleEnv : HarnessEnv Int where
  nameOf := fun _ => "L"
  metricListOf := fun _ => []
  fitTime := fun n => Int.ofNat (100 + n)
  fitVal := fun n b _ => if b then Int.ofNat n else -Int.ofNat n

/-- A collaborator environment whose object `9` is a list of two metric
objects named `f1` and `acc`. -/
def metricEnv : HarnessEnv Int where
  nameOf := fun v => if v = 1 then "f1" else if v = 2 then "acc" else "L"
  metricListOf := fun v => if v = 9 then [1, 2] else []
  fitTime := fun n => Int.ofNat (100 + n)
  fitVal := fun n b _ => if b then Int.ofNat n else -Int.ofNat n

/-- A well-formed training-hyperparameter dict. -/
def thSample : PyDict Int := [("criterion", 7), ("batch_size", 32), ("lr", 5)]

/-- A training-hyperparameter dict that also carries the metrics list `9`. -/
def thMetrics : PyDict Int := [("criterion", 7), ("batch_size", 32), ("lr", 5), ("metrics", 9)]

/-- A well-formed model-hyperparameter dict. -/
def mhSample : PyDict Int := [("model_class", 1)]

/-
Helper lemmas about the dict primitives.
-/

theorem pyLookup_append {α : Type} (a b : PyDict α) (k : String) :
    pyLookup (a ++ b) k =
      match pyLookup a k with
      | some v => some v
      | none => pyLookup b k := by
  induction a with
  | nil => simp [pyLookup]
  | cons p rest ih => by_cases h : p.1 = k <;> simp [pyLookup, h, ih]

theorem pyLookup_eq_none_iff {α : Type} (c : PyDict α) (k : String) :
    pyLookup c k = none ↔ k ∉ c.map Prod.fst := by
  induction c with
  | nil => simp [pyLookup]
  | cons p rest ih =>
    by_cases h : p.1 = k
    · subst h
      simp [pyLookup]
    · simp only [pyLookup, if_neg h, ih, List.map_cons, List.mem_cons]
      constructor
      · intro h0 h1
        rcases h1 with h1 | h1
        · exact h h1.symm
        · exact h0 h1
      · intro h0 h1
        exact h0 (Or.inr h1)

theorem pyLookup_of_mem_nodup {α : Type} {c : PyDict α}
    (h : (c.map Prod.fst).Nodup) {p : String × α} (hp : p ∈ c) :
    pyLookup c p.1 = some p.2 := by
  induction c with
  | nil => cases hp
  | cons q rest ih =>
    rw [List.map_cons, List.nodup_cons] at h
    rcases List.mem_cons.mp hp with hq | hrest
    · subst hq
      simp [pyLookup]
    · have hne : q.1 ≠ p.1 := by
        intro e
        exact h.1 (e ▸ List.mem_map_of_mem Prod.fst hrest)
      simp [pyLookup, hne, ih h.2 hrest]

theorem pyLookup_replace {α : Type} (c : PyDict α) (k : String) (w : α) :
    pyLookup (c.map (fun p => if p.1 = k then (p.1, w) else p)) k =
      (pyLookup c k).map (fun _ => w) := by
  induction c with
  | nil => simp [pyLookup]
  | cons p rest ih => by_cases h : p.1 = k <;> simp [pyLookup, h, ih]

theorem pyLookup_replace_ne {α : Type} (c : PyDict α) (k : String) (w : α)
    (k' : String) (h : k' ≠ k) :
    pyLookup (c.map (fun p => if p.1 = k then (p.1, w) else p)) k' = pyLookup c k' := by
  induction c with
  | nil => simp [pyLookup]
  | cons p rest ih =>
    have h3 : ¬(k = k') := fun e => h e.symm
    by_cases h1 : p.1 = k
    · simp [pyLookup, h1, h3, ih]
    · by_cases h2 : p.1 = k' <;> simp [pyLookup, h1, h2, h, h3, ih]

theorem touch_map_fst_present {V : Type} (c : Cols V) (k : String) (v : V)
    (h : k ∈ c.map Prod.fst) :
    (touch c k v).map Prod.fst = c.map Prod.fst := by
  unfold touch
  cases h0 : pyLookup c k with
  | none => exact absurd ((pyLookup_eq_none_iff c k).mp h0) (not_not_intro h)
  | some old =>
    rw [List.map_map]
    apply List.map_congr_left
    intro p _
    by_cases h1 : p.1 = k <;> simp [h1]

theorem touch_map_fst_absent {V : Type} (c : Cols V) (k : String) (v : V)
    (h : k ∉ c.map Prod.fst) :
    (touch c k v).map Prod.fst = c.map Prod.fst ++ [k] := by
  unfold touch
  rw [(pyLookup_eq_none_iff c k).mpr h]
  simp

theorem pyLookup_touch_self {V : Type} (c : Cols V) (k : String) (v : V) :
    pyLookup (touch c k v) k = some ((pyLookup c k).getD [] ++ [v]) := by
  unfold touch
  cases h0 : pyLookup c k with
  | none =>
    rw [pyLookup_append, h0]
    simp [pyLookup]
  | some old =>
    rw [pyLookup_replace, h0]
    rfl

theorem pyLookup_touch_ne {V : Type} (c : Cols V) (k : String) (v : V)
    (k' : String) (h : k' ≠ k) :
    pyLookup (touch c k v) k' = pyLookup c k' := by
  unfold touch
  cases h0 : pyLookup c k with
  | none =>
    rw [pyLookup_append]
    cases h1 : pyLookup c k' with
    | some w => rfl
    | none =>
      have h2 : ¬(k = k') := fun e => h e.symm
      simp [pyLookup, h2]
  | some old => exact pyLookup_replace_ne c k (old ++ [v]) k' h

theorem applyUpdates_names {V : Type} (us : List (String × V)) (c : Cols V)
    (h : (us.map Prod.fst).Nodup) :
    (applyUpdates c us).map Prod.fst =
      c.map Prod.fst ++ (us.map Prod.fst).filter (fun k => (pyLookup c k).isNone) := by
  induction us generalizing c with
  | nil => simp [applyUpdates]
  | cons kv rest ih =>
    rw [List.map_cons, List.nodup_cons] at h
    have step : applyUpdates c (kv :: rest) = applyUpdates (touch c kv.1 kv.2) rest := rfl
    have hfilter : (rest.map Prod.fst).filter (fun k => (pyLookup (touch c kv.1 kv.2) k).isNone)
        = (rest.map Prod.fst).filter (fun k => (pyLookup c k).isNone) := by
      apply List.filter_congr
      intro k hk
      have hne : k ≠ kv.1 := fun e => h.1 (e ▸ hk)
      rw [pyLookup_touch_ne c kv.1 kv.2 k hne]
    cases h0 : pyLookup c kv.1 with
    | some old =>
      have hmem : kv.1 ∈ c.map Prod.fst := by
        by_contra hmem
        rw [(pyLookup_eq_none_iff c kv.1).mpr hmem] at h0
        cases h0
      rw [step, ih _ h.2, touch_map_fst_present c kv.1 kv.2 hmem, hfilter,
        List.map_cons, List.filter_cons]
      simp [h0]
    | none =>
      rw [step, ih _ h.2, touch_map_fst_absent c kv.1 kv.2
        ((pyLookup_eq_none_iff c kv.1).mp h0), hfilter, List.map_cons, List.filter_cons]
      simp [h0]

theorem applyUpdates_lookup {V : Type} (us : List (String × V)) (c : Cols V)
    (h : (us.map Prod.fst).Nodup) (k : String) :
    pyLookup (applyUpdates c us) k =
      match pyLookup us k with
      | some v => some ((pyLookup c k).getD [] ++ [v])
      | none => pyLookup c k := by
  induction us generalizing c with
  | nil => simp [applyUpdates, pyLookup]
  | cons kv rest ih =>
    rw [List.map_cons, List.nodup_cons] at h
    have step : applyUpdates c (kv :: rest) = applyUpdates (touch c kv.1 kv.2) rest := rfl
    by_cases hk : kv.1 = k
    · subst hk
      have hrest : pyLookup rest kv.1 = none :=
        (pyLookup_eq_none_iff rest kv.1).mpr h.1
      rw [step, ih _ h.2, hrest, pyLookup_touch_self]
      simp [pyLookup]
    · rw [step, ih _ h.2]
      have htne := pyLookup_touch_ne c kv.1 kv.2 k (fun e => hk e.symm)
      cases h1 : pyLookup rest k with
      | some v => simp [pyLookup, hk, h1, htne]
      | none => simp [pyLookup, hk, h1, htne]

/-
Claim theorems.
-/

theorem grid_product_eq_sprod {α β : Type} (ts : List α) (ms : List β) :
    grid_product ts ms = ts ×ˢ ms := rfl

theorem countP_eq_one_of_nodup_mem {α : Type} [DecidableEq α] {l : List α} {a : α}
    (hnd : l.Nodup) (ha : a ∈ l) :
    l.countP (fun x => decide (x = a)) = 1 := by
  induction l with
  | nil => cases ha
  | cons b rest ih =>
    rw [List.nodup_cons] at hnd
    rw [List.countP_cons]
    rcases List.mem_cons.mp ha with hab | har
    · subst hab
      have hz : rest.countP (fun x => decide (x = a)) = 0 := by
        rw [List.countP_eq_zero]
        intro x hx
        simp only [decide_eq_true_eq]
        intro e
        exact hnd.1 (e ▸ hx)
      simp [hz]
    · have hb : ¬(b = a) := fun e => hnd.1 (e ▸ har)
      simp [ih hnd.2 har, hb]

/-- C3: `grid_search_train_validation` iterates exactly the Cartesian product
of the training and model hyperparameter lists: `len(T) * len(M)`
combinations, (t, m) present iff t ∈ T and m ∈ M, and — when the candidate
lists are duplicate-free — each pair exactly once.  The wrapper passes this
very iterator to `collect_results` (lines 81-95). -/
theorem grid_search_cartesian_product {V : Type}
    (ts ms : List (PyDict V)) [DecidableEq V] :
    (grid_product ts ms).length = ts.length * ms.length ∧
    (∀ t m, (t, m) ∈ grid_product ts ms ↔ t ∈ ts ∧ m ∈ ms) ∧
    (ts.Nodup → ms.Nodup → ∀ t ∈ ts, ∀ m ∈ ms,
      (grid_product ts ms).countP (fun x => decide (x = (t, m))) = 1) ∧
    (∀ (env : HarnessEnv V) keys seeds b,
      grid_search_train_validation env ts ms keys seeds b =
        collect_results env (grid_product ts ms) keys seeds b) := by
  refine ⟨?_, ?_, ?_, fun _ _ _ _ => rfl⟩
  · rw [grid_product_eq_sprod]
    exact List.length_product ts ms
  · intro t m
    rw [grid_product_eq_sprod]
    exact List.mem_product
  · intro hts hms t ht m hm
    rw [grid_product_eq_sprod]
    exact countP_eq_one_of_nodup_mem (hts.product hms) (List.mem_product.mpr ⟨ht, hm⟩)

/-- C3 witness: the theorem at `T = [[("a", 1)], [("a", 2)]]`,
`M = [[("b", 1)]]`. -/
theorem grid_search_cartesian_product_witness :
    (grid_product [[("a", (1 : Int))], [("a", 2)]] [[("b", 1)]]).length = 2 * 1 ∧
    (grid_product [[("a", (1 : Int))], [("a", 2)]] [[("b", 1)]]).countP
      (fun x => decide (x = ([("a", 1)], [("b", 1)]))) = 1 := by
  obtain ⟨h1, _, h3, _⟩ :=
    grid_search_cartesian_product [[("a", (1 : Int))], [("a", 2)]] [[("b", 1)]]
  exact ⟨h1, h3 (by decide) (by decide) [("a", 1)] (by decide) [("b", 1)] (by decide)⟩

/-- C4 counterexample: a `Criterion` carrying the reduction callable
`sumReduce` returns the raw elementwise loss `[4, 9]` on
`([1, 2], [3, 5])`, not the reduced `[13]` the claim predicts. -/
theorem criterion_call_ignores_reduction :
    exCriterion.reduction_function = some sumReduce ∧
    exCriterion.call [1, 2] [3, 5] = [4, 9] ∧
    sumReduce (exCriterion.loss_function [1, 2] [3, 5]) = [13] ∧
    exCriterion.call [1, 2] [3, 5] ≠ sumReduce (exCriterion.loss_function [1, 2] [3, 5]) :=
  ⟨rfl, by decide, by decide, by decide⟩

/-- C4 amended: calling a `Criterion` returns `L(predicted, target)`
unchanged whether or not a reduction function is supplied; the reduction
callable is stored on the criterion but `__call__` does not apply it. -/
theorem criterion_call_returns_raw_loss {α β γ : Type} (n : String)
    (L : α → β → γ) (R : Option (γ → γ)) (p : α) (t : β) :
    (Criterion.mk n L R).call p t = L p t ∧
    (Criterion.mk n L R).reduction_function = R :=
  ⟨rfl, rfl⟩

/-- C7: `get_optimizer` returns exactly the deferred constructor applied to
the model parameters and the bound partial kwargs; kwargs default to the
empty dict when the constructor argument was `None`. -/
theorem optimizer_wrapper_defers_construction {N O V : Type}
    (ctor : N → PyDict V → O) (ctorRepr identifier : String)
    (P : PyDict V) (net_params : N) :
    (OptimizerWrapper.make ctor ctorRepr identifier (some P)).get_optimizer net_params =
      ctor net_params P ∧
    (OptimizerWrapper.make ctor ctorRepr identifier (some P)).optimizer_partial_params = P ∧
    (OptimizerWrapper.make ctor ctorRepr identifier none).get_optimizer net_params =
      ctor net_params [] :=
  ⟨rfl, rfl, rfl⟩

theorem mhLoopBody_error {τ ρ : Type} (predIdx targIdx : String → Except PyErr τ)
    (key : String) :
    ∃ e, (mhLoopBody predIdx targIdx key : Except PyErr ρ) = Except.error e := by
  unfold mhLoopBody
  cases h1 : strUnpack2 key with
  | error e => exact ⟨e, by simp [h1, Bind.bind, Except.bind]⟩
  | ok kv =>
    cases h2 : predIdx kv.1 with
    | error e => exact ⟨e, by simp [h1, h2, Bind.bind, Except.bind]⟩
    | ok x =>
      cases h3 : targIdx kv.1 with
      | error e => exact ⟨e, by simp [h1, h2, h3, Bind.bind, Except.bind]⟩
      | ok y => exact ⟨PyErr.typeError, by simp [h1, h2, h3, Bind.bind, Except.bind]⟩

/-- C10: on a non-empty `loss_functions` dict, `MultyHeadCriterion.__call__`
always raises (the loop header unpacks each *key* of the dict, and the head
"loss" it binds is a fragment of the key string, never a callable), whatever
the indexing of the predicted/target labels does. -/
theorem multyhead_call_always_raises {F τ ρ : Type} (c : MultyHeadCriterion F)
    (predIdx targIdx : String → Except PyErr τ)
    (h : c.loss_functions ≠ []) :
    ∃ e, (c.call predIdx targIdx : Except PyErr (List ρ)) = Except.error e := by
  unfold MultyHeadCriterion.call
  cases hlf : c.loss_functions with
  | nil => exact absurd hlf h
  | cons kv rest =>
    obtain ⟨e, he⟩ := mhLoopBody_error (ρ := ρ) predIdx targIdx kv.1
    refine ⟨e, ?_⟩
    simp [mhLoop, he, Bind.bind, Except.bind]

/-- C10 witness: the single-head dict `{'ab': loss}`. -/
theorem multyhead_call_always_raises_witness :
    ∃ e, (MultyHeadCriterion.call
        { name := "multi", loss_functions := [("ab", (0 : Int))], loss_weights := [1],
          reduction_function := none }
        (fun _ => Except.ok (0 : Int)) (fun _ => Except.ok 0) : Except PyErr (List Int)) =
      Except.error e :=
  multyhead_call_always_raises _ _ _ (List.cons_ne_nil _ _)

/-- C2 counterexample: with the sample stream (0,0), (1,1), (0,1) and
`n_run = 3`, the third draw (0,1) is discarded — its model dict 0 and its
training dict 1 each appear among earlier acceptances — although (0,1) is
not a previously accepted *pair* (the accepted pairs are (0,0) and (1,1)),
refuting "discarded if and only if it is an exact duplicate of a previously
accepted (model, training) pair". -/
theorem rs_discards_nonduplicate_pair :
    (rs_run (fun k => (([0, 1, 0].getD k 7, [0, 1, 1].getD k 7) : Nat × Nat)) 3 2).accM.zip
      (rs_run (fun k => (([0, 1, 0].getD k 7, [0, 1, 1].getD k 7) : Nat × Nat)) 3 2).accT
      = [(0, 0), (1, 1)] ∧
    (fun k => (([0, 1, 0].getD k 7, [0, 1, 1].getD k 7) : Nat × Nat))
      (rs_run (fun k => (([0, 1, 0].getD k 7, [0, 1, 1].getD k 7) : Nat × Nat)) 3 2).k
      = (0, 1) ∧
    ((0 : Nat), (1 : Nat)) ∉
      ((rs_run (fun k => (([0, 1, 0].getD k 7, [0, 1, 1].getD k 7) : Nat × Nat)) 3 2).accM.zip
        (rs_run (fun k => (([0, 1, 0].getD k 7, [0, 1, 1].getD k 7) : Nat × Nat)) 3 2).accT) ∧
    rs_run (fun k => (([0, 1, 0].getD k 7, [0, 1, 1].getD k 7) : Nat × Nat)) 3 3 =
      { accM := [0, 1], accT := [0, 1], i := 2, k := 3 } := by decide

theorem rs_run_invariant {M T : Type} [DecidableEq M] [DecidableEq T]
    (f : Nat → M × T) (n_run : Nat) (steps : Nat) :
    (rs_run f n_run steps).accM.length = (rs_run f n_run steps).i ∧
    (rs_run f n_run steps).accT.length = (rs_run f n_run steps).i ∧
    (rs_run f n_run steps).i ≤ n_run := by
  induction steps with
  | zero => simp [rs_run]
  | succ s ih =>
    rw [rs_run]
    unfold rs_step
    by_cases h1 : (rs_run f n_run s).i < n_run
    · rw [if_pos h1]
      by_cases h2 : ¬((f (rs_run f n_run s).k).1 ∈ (rs_run f n_run s).accM ∧
          (f (rs_run f n_run s).k).2 ∈ (rs_run f n_run s).accT)
      · rw [if_pos h2]
        refine ⟨?_, ?_, h1⟩ <;> simp [ih.1, ih.2.1]
      · rw [if_neg h2]
        exact ih
    · rw [if_neg h1]
      exact ih

/-- C2 amended: the sampling `while` loop of
`randomized_search_train_validation` accepts exactly `n_run` combinations
whenever it terminates (the accepted lists both have length `n_run`), and a
freshly sampled pair is discarded if and only if its model dict equals some
previously accepted model dict AND its training dict equals some previously
accepted training dict — componentwise membership in the two accepted lists,
not duplication of an accepted (model, training) pair. -/
theorem rs_accepts_n_run_and_discard_is_componentwise {M T : Type}
    [DecidableEq M] [DecidableEq T] (f : Nat → M × T) (n_run : Nat) :
    (rs_terminates f n_run →
      ∃ steps, (rs_run f n_run steps).accM.length = n_run ∧
        (rs_run f n_run steps).accT.length = n_run) ∧
    (∀ steps, (rs_run f n_run steps).i < n_run →
      (rs_run f n_run (steps + 1) =
          { rs_run f n_run steps with k := (rs_run f n_run steps).k + 1 } ↔
        (f (rs_run f n_run steps).k).1 ∈ (rs_run f n_run steps).accM ∧
        (f (rs_run f n_run steps).k).2 ∈ (rs_run f n_run steps).accT)) := by
  constructor
  · rintro ⟨steps, hsteps⟩
    obtain ⟨h1, h2, _⟩ := rs_run_invariant f n_run steps
    exact ⟨steps, by rw [h1, hsteps], by rw [h2, hsteps]⟩
  · intro steps hlt
    rw [rs_run]
    unfold rs_step
    rw [if_pos hlt]
    by_cases h2 : ¬((f (rs_run f n_run steps).k).1 ∈ (rs_run f n_run steps).accM ∧
        (f (rs_run f n_run steps).k).2 ∈ (rs_run f n_run steps).accT)
    · rw [if_pos h2]
      constructor
      · intro heq
        have : (rs_run f n_run steps).i + 1 = (rs_run f n_run steps).i :=
          congrArg RSState.i heq
        omega
      · intro hmem
        exact absurd hmem h2
    · rw [if_neg h2]
      exact iff_of_true rfl (not_not.mp h2)

/-- C2 witness: the invariant and the discard characterization at the
concrete stream (0,0), (1,1), (0,1), after two accepted draws. -/
theorem rs_accepts_n_run_and_discard_is_componentwise_witness :
    (rs_run (fun k => (([0, 1, 0].getD k 7, [0, 1, 1].getD k 7) : Nat × Nat)) 3 3 =
        { rs_run (fun k => (([0, 1, 0].getD k 7, [0, 1, 1].getD k 7) : Nat × Nat)) 3 2 with
          k := (rs_run (fun k => (([0, 1, 0].getD k 7, [0, 1, 1].getD k 7) : Nat × Nat)) 3 2).k + 1 } ↔
      ((fun k => (([0, 1, 0].getD k 7, [0, 1, 1].getD k 7) : Nat × Nat))
          (rs_run (fun k => (([0, 1, 0].getD k 7, [0, 1, 1].getD k 7) : Nat × Nat)) 3 2).k).1 ∈
        (rs_run (fun k => (([0, 1, 0].getD k 7, [0, 1, 1].getD k 7) : Nat × Nat)) 3 2).accM ∧
      ((fun k => (([0, 1, 0].getD k 7, [0, 1, 1].getD k 7) : Nat × Nat))
          (rs_run (fun k => (([0, 1, 0].getD k 7, [0, 1, 1].getD k 7) : Nat × Nat)) 3 2).k).2 ∈
        (rs_run (fun k => (([0, 1, 0].getD k 7, [0, 1, 1].getD k 7) : Nat × Nat)) 3 2).accT) :=
  (rs_accepts_n_run_and_discard_is_componentwise
    (fun k => (([0, 1, 0].getD k 7, [0, 1, 1].getD k 7) : Nat × Nat)) 3).2 2 (by decide)

theorem rs_run_const_stuck (steps : Nat) :
    rs_run (fun _ => ((0 : Nat), (0 : Nat))) 2 steps =
      if steps = 0 then { accM := [], accT := [], i := 0, k := 0 }
      else { accM := [0], accT := [0], i := 1, k := steps } := by
  induction steps with
  | zero => rfl
  | succ s ih =>
    rw [rs_run, ih]
    by_cases h : s = 0
    · subst h
      decide
    · rw [if_neg h, if_neg (Nat.succ_ne_zero s)]
      simp [rs_step]

/-- C9 counterexample: with constant samplers (every draw is (0,0)) and
`n_run = 2`, the sampling loop never reaches two accepted combinations —
after the first acceptance every draw is discarded — so the `while` loop
runs forever. -/
theorem rs_sampling_loop_can_run_forever :
    ¬ rs_terminates (fun _ => ((0 : Nat), (0 : Nat))) 2 := by
  rintro ⟨steps, hsteps⟩
  rw [rs_run_const_stuck] at hsteps
  by_cases h : steps = 0 <;> simp [h] at hsteps

/-- C9 amended: the sampling loop terminates for samplers that keep
producing fresh values — in particular whenever the first `n_run` joint
draws have pairwise distinct model dicts, every one of them is accepted and
the loop stops after `n_run` iterations; but termination does not hold for
*every* sampler pair (see the constant-sampler counterexample). -/
theorem rs_terminates_of_fresh_models {M T : Type} [DecidableEq M] [DecidableEq T]
    (f : Nat → M × T) (n_run : Nat)
    (h : ∀ j, j < n_run → ∀ i, i < j → (f i).1 ≠ (f j).1) :
    rs_terminates f n_run := by
  have run_eq : ∀ steps, steps ≤ n_run →
      rs_run f n_run steps =
        { accM := (List.range steps).map (fun j => (f j).1),
          accT := (List.range steps).map (fun j => (f j).2),
          i := steps, k := steps } := by
    intro steps
    induction steps with
    | zero => intro _; rfl
    | succ s ih =>
      intro hs
      have hlt : s < n_run := Nat.lt_of_succ_le hs
      rw [rs_run, ih (Nat.le_of_lt hlt)]
      unfold rs_step
      rw [if_pos hlt]
      have hfresh : (f s).1 ∉ (List.range s).map (fun j => (f j).1) := by
        intro hmem
        obtain ⟨j, hj, hje⟩ := List.mem_map.mp hmem
        exact h s hlt j (List.mem_range.mp hj) hje
      rw [if_pos (fun hc => hfresh hc.1)]
      simp [List.range_succ]
  exact ⟨n_run, by rw [run_eq n_run (le_refl n_run)]⟩

/-- C9 amended witness: the always-fresh stream k ↦ (k, 0) with
`n_run = 2`. -/
theorem rs_terminates_of_fresh_models_witness :
    rs_terminates (fun k => ((k, 0) : Nat × Nat)) 2 :=
  rs_terminates_of_fresh_models (fun k => ((k, 0) : Nat × Nat)) 2 (by decide)

/-- C1: with two seeds and one hyperparameter key to save, the run reaches
`pd.DataFrame` with a ragged `dataframe_dict` — the key column got one append
per *combination* (lines 311-312 sit outside the per-seed loop) while `seed`
and `time` got one append per *(combination, seed)* (lines 314-316) — so the
constructor raises `ValueError` and nothing is returned or persisted.  The
second conjunct exhibits the ragged columns. -/
theorem collect_results_two_seeds_raises :
    collect_results simpleEnv [(thSample, mhSample)] ["lr"] (some [11, 22]) false =
      Except.error PyErr.valueError ∧
    collect_columns simpleEnv [(thSample, mhSample)] ["lr"] (some [11, 22]) false =
      Except.ok [("lr", [5]), ("time", [100, 101]), ("seed", [11, 22])] :=
  ⟨rfl, rfl⟩

/-- C5: with the documented default `seeds=None` (handled by the
`range(1)` fallback of line 202) and one well-formed combination, the
harness's own line 314 — `for i, seed in enumerate(seeds)` — iterates the
raw `None` and raises `TypeError` before any result is produced: an
exception originating in the harness's own marshaling, not in an injected
collaborator (all collaborators here are total). -/
theorem collect_results_seeds_none_raises :
    collect_results simpleEnv [(thSample, mhSample)] [] none false =
      Except.error PyErr.typeError :=
  rfl

/-- C6: whenever `collect_results` returns normally, the DataFrame it
returns is the object it serialized: the table is built by `pd.DataFrame`
from the appended column lists, dumped as-is, and that same object is
returned (lines 332-336). -/
theorem collect_results_returns_serialized {V : Type} (env : HarnessEnv V)
    (combos : List (PyDict V × PyDict V)) (keys : List String)
    (seeds : Option (List V)) (b : Bool) (p : DataFrame V × DataFrame V)
    (h : collect_results env combos keys seeds b = Except.ok p) :
    p.1 = p.2 ∧
    ∃ d, collect_columns env combos keys seeds b = Except.ok d ∧
      mkDataFrame d = Except.ok p.1 ∧ mkDataFrame d = Except.ok p.2 := by
  unfold collect_results at h
  cases hc : collect_columns env combos keys seeds b with
  | error e =>
    rw [hc] at h
    cases h
  | ok d =>
    rw [hc] at h
    cases hm : mkDataFrame d with
    | error e =>
      simp only [Bind.bind, Except.bind, hm] at h
      cases h
    | ok df =>
      simp only [Bind.bind, Except.bind, hm] at h
      cases h
      exact ⟨rfl, d, rfl, hm, hm⟩

/-- C6 witness: a one-combination, one-seed run that succeeds; the returned
pair consists of the serialized object twice. -/
theorem collect_results_returns_serialized_witness :
    ∃ p : DataFrame Int × DataFrame Int,
      collect_results simpleEnv [(thSample, mhSample)] ["lr"] (some [11]) false =
        Except.ok p ∧ p.1 = p.2 := by
  have h : collect_results simpleEnv [(thSample, mhSample)] ["lr"] (some [11]) false =
      Except.ok ({ cols := [("lr", [5]), ("time", [100]), ("seed", [11])] },
                 { cols := [("lr", [5]), ("time", [100]), ("seed", [11])] }) := rfl
  exact ⟨_, h, (collect_results_returns_serialized _ _ _ _ _ _ h).1⟩

theorem mem_of_pyLookup_some {α : Type} {c : PyDict α} {k : String} {v : α}
    (h : pyLookup c k = some v) : k ∈ c.map Prod.fst := by
  by_contra hmem
  rw [(pyLookup_eq_none_iff c k).mpr hmem] at h
  cases h

theorem pyLookup_isSome_of_mem {α : Type} {c : PyDict α} {k : String}
    (h : k ∈ c.map Prod.fst) : (pyLookup c k).isSome := by
  cases h0 : pyLookup c k with
  | some v => rfl
  | none => exact absurd ((pyLookup_eq_none_iff c k).mp h0) (not_not_intro h)

theorem pyGetEach_ok {V : Type} (total : PyDict V) (keys : List String)
    (h : ∀ k ∈ keys, (pyLookup total k).isSome) :
    ∃ kvs : List (String × V),
      pyGetEach total keys = Except.ok kvs ∧ kvs.map Prod.fst = keys := by
  induction keys with
  | nil => exact ⟨[], rfl, rfl⟩
  | cons k rest ih =>
    obtain ⟨v, hv⟩ := Option.isSome_iff_exists.mp (h k (List.mem_cons_self k rest))
    obtain ⟨kvs, hkvs, hfst⟩ := ih (fun k' hk' => h k' (List.mem_cons_of_mem _ hk'))
    refine ⟨(k, v) :: kvs, ?_, by simp [hfst]⟩
    simp [pyGetEach, pyGet, hv, hkvs, Bind.bind, Except.bind]

theorem dset_append_of_absent {α : Type} (d : PyDict α) (k : String) (v : α)
    (h : k ∉ d.map Prod.fst) : dset d k v = d ++ [(k, v)] := by
  unfold dset
  rw [(pyLookup_eq_none_iff d k).mpr h]

theorem foldl_dset_fresh {α : Type} (ks : List String) (d : PyDict α) (v : α)
    (h : ∀ k ∈ ks, k ∉ d.map Prod.fst) (hnd : ks.Nodup) :
    ks.foldl (fun d k => dset d k v) d = d ++ ks.map (fun k => (k, v)) := by
  induction ks generalizing d with
  | nil => simp
  | cons k rest ih =>
    rw [List.nodup_cons] at hnd
    rw [List.foldl_cons, dset_append_of_absent d k v (h k (List.mem_cons_self k rest)),
      ih (d ++ [(k, v)])]
    · simp
    · intro k' hk'
      rw [List.map_append, List.mem_append]
      rintro (hin | hin)
      · exact h k' (List.mem_cons_of_mem _ hk') hin
      · have : k' = k := by simpa using hin
        exact hnd.1 (this ▸ hk')
    · exact hnd.2

theorem initCols_eq {V : Type} (keys : List String) (b : Bool)
    (h6 : keys.Nodup) (h7 : ∀ k ∈ keys, k ∉ specialNames b) :
    (initCols keys b : Cols V) = (keys ++ specialNames b).map (fun k => (k, [])) := by
  have htime : "time" ∉ keys := fun hm => h7 _ hm (by simp [specialNames])
  have hseed : "seed" ∉ keys := fun hm => h7 _ hm (by simp [specialNames])
  have hd0 : (keys.foldl (fun d k => dset d k []) [] : Cols V)
      = keys.map (fun k => (k, [])) := by
    rw [foldl_dset_fresh keys [] [] (by simp) h6, List.nil_append]
  have hfst : (keys.map (fun k => (k, ([] : List V)))).map Prod.fst = keys := by
    rw [List.map_map]
    exact List.map_id keys
  have hd1 : dset (keys.map (fun k => (k, ([] : List V)))) "time" []
      = keys.map (fun k => (k, [])) ++ [("time", [])] :=
    dset_append_of_absent _ _ _ (by rw [hfst]; exact htime)
  have hd2 : dset (keys.map (fun k => (k, ([] : List V))) ++ [("time", [])]) "seed" []
      = keys.map (fun k => (k, [])) ++ [("time", []), ("seed", [])] := by
    rw [dset_append_of_absent _ _ _ (by
      rw [List.map_append, List.mem_append, hfst]
      rintro (hin | hin)
      · exact hseed hin
      · simp at hin), List.append_assoc]
    rfl
  unfold initCols
  show (if b = true
      then dset (dset (dset (dset (keys.foldl (fun d k => dset d k []) []) "time" [])
        "seed" []) "train_loss" []) "val_loss" []
      else dset (dset (keys.foldl (fun d k => dset d k []) []) "time" []) "seed" [])
    = (keys ++ specialNames b).map (fun k => (k, ([] : List V)))
  rw [hd0, hd1, hd2]
  cases b with
  | false => simp [specialNames]
  | true =>
    have htl : "train_loss" ∉ keys := fun hm => h7 _ hm (by simp [specialNames])
    have hvl : "val_loss" ∉ keys := fun hm => h7 _ hm (by simp [specialNames])
    have hd3 : dset (keys.map (fun k => (k, ([] : List V)))
          ++ [("time", []), ("seed", [])]) "train_loss" []
        = keys.map (fun k => (k, [])) ++ [("time", []), ("seed", []), ("train_loss", [])] := by
      rw [dset_append_of_absent _ _ _ (by
        rw [List.map_append, List.mem_append, hfst]
        rintro (hin | hin)
        · exact htl hin
        · simp at hin), List.append_assoc]
      rfl
    have hd4 : dset (keys.map (fun k => (k, ([] : List V)))
          ++ [("time", []), ("seed", []), ("train_loss", [])]) "val_loss" []
        = keys.map (fun k => (k, []))
          ++ [("time", []), ("seed", []), ("train_loss", []), ("val_loss", [])] := by
      rw [dset_append_of_absent _ _ _ (by
        rw [List.map_append, List.mem_append, hfst]
        rintro (hin | hin)
        · exact hvl hin
        · simp at hin), List.append_assoc]
      rfl
    rw [if_pos rfl, hd3, hd4]
    simp [specialNames]

theorem sameLengths_of_all {V : Type} (c : Cols V) (n : Nat)
    (h : ∀ p ∈ c, p.2.length = n) : sameLengths c = true := by
  cases c with
  | nil => rfl
  | cons p rest =>
    unfold sameLengths
    rw [List.all_eq_true]
    intro q hq
    rw [h q (List.mem_cons_of_mem _ hq), h p (List.mem_cons_self _ _)]
    exact beq_self_eq_true n

theorem comboUpdates_one_seed_fst {V : Type} (env : HarnessEnv V) (run_idx : Nat)
    (critName : String) (mnames : List String) (s0 : V) (b : Bool)
    (kvs : List (String × V)) :
    (comboUpdates env run_idx critName mnames [s0] b kvs).map Prod.fst =
      kvs.map Prod.fst ++ ["seed", "time"]
        ++ (if b then ["train_loss", "val_loss"] else [])
        ++ metricColNames mnames := by
  unfold comboUpdates metricColNames
  cases b <;> simp [List.map_flatMap]

theorem processCombo_eval {V : Type} (env : HarnessEnv V) (keys : List String)
    (s : List V) (b : Bool) (cols : Cols V) (run_idx : Nat)
    (combo : PyDict V × PyDict V) (cv bv mv : V) (kvs : List (String × V))
    (hcrit : pyLookup combo.1 "criterion" = some cv)
    (hbatch : pyLookup combo.1 "batch_size" = some bv)
    (hmodel : pyLookup combo.2 "model_class" = some mv)
    (hkvs : pyGetEach (dmerge combo.1 combo.2) keys = Except.ok kvs)
    (hs : s ≠ []) :
    processCombo env keys (some s) b (cols, run_idx) combo =
      Except.ok (applyUpdates cols
        (comboUpdates env run_idx (env.nameOf cv) (metricNames env combo.1) s b kvs),
        run_idx + s.length) := by
  have hlen0 : (s.length == 0) = false := by
    rw [beq_eq_false_iff_ne]
    simpa using hs
  unfold processCombo
  simp [pyGet, hcrit, hbatch, hmodel, hkvs, hlen0, Bind.bind, Except.bind, Except.map]

theorem mem_specialNames_time (b : Bool) : "time" ∈ specialNames b := by
  cases b <;> simp [specialNames]

theorem mem_specialNames_seed (b : Bool) : "seed" ∈ specialNames b := by
  cases b <;> simp [specialNames]

theorem nodup_base_mcols {b : Bool} {keys mnames : List String}
    (h6 : keys.Nodup) (h7 : ∀ k ∈ keys, k ∉ specialNames b)
    (h8 : (metricColNames mnames).Nodup)
    (h9 : ∀ k ∈ metricColNames mnames, k ∉ keys ++ specialNames b) :
    (keys ++ specialNames b ++ metricColNames mnames).Nodup := by
  rw [List.nodup_append, List.nodup_append]
  refine ⟨⟨h6, ?_, fun k hk hs => h7 k hk hs⟩, h8, fun k hk hm => h9 k hm hk⟩
  cases b <;> simp [specialNames]

/-- The column effect of one combination with a single seed: the harness's
fallible steps succeed, the run counter advances by one, the metric columns
are present afterwards, and every column holding rows for `j` combinations
now holds rows for `j + 1`. -/
theorem processCombo_one_seed_step {V : Type} (env : HarnessEnv V)
    (keys : List String) (s0 : V) (b : Bool) (mnames : List String)
    (cols : Cols V) (run_idx j : Nat) (combo : PyDict V × PyDict V)
    (hc1 : (pyLookup combo.1 "criterion").isSome)
    (hc2 : (pyLookup combo.1 "batch_size").isSome)
    (hc3 : (pyLookup combo.2 "model_class").isSome)
    (hc4 : ∀ k ∈ keys, (pyLookup (dmerge combo.1 combo.2) k).isSome)
    (hc5 : metricNames env combo.1 = mnames)
    (h6 : keys.Nodup)
    (h7 : ∀ k ∈ keys, k ∉ specialNames b)
    (h8 : (metricColNames mnames).Nodup)
    (h9 : ∀ k ∈ metricColNames mnames, k ∉ keys ++ specialNames b)
    (hshape : (j = 0 ∧ cols.map Prod.fst = keys ++ specialNames b) ∨
      cols.map Prod.fst = keys ++ specialNames b ++ metricColNames mnames)
    (hlen : ∀ k l, pyLookup cols k = some l → l.length = j) :
    ∃ cols', processCombo env keys (some [s0]) b (cols, run_idx) combo =
        Except.ok (cols', run_idx + 1) ∧
      cols'.map Prod.fst = keys ++ specialNames b ++ metricColNames mnames ∧
      (∀ k l, pyLookup cols' k = some l → l.length = j + 1) := by
  obtain ⟨cv, hcv⟩ := Option.isSome_iff_exists.mp hc1
  obtain ⟨bv, hbv⟩ := Option.isSome_iff_exists.mp hc2
  obtain ⟨mv, hmv⟩ := Option.isSome_iff_exists.mp hc3
  obtain ⟨kvs, hkvs, hkfst⟩ := pyGetEach_ok _ keys hc4
  have heval := processCombo_eval env keys [s0] b cols run_idx combo cv bv mv kvs
    hcv hbv hmv hkvs (by simp)
  set updates := comboUpdates env run_idx (env.nameOf cv) (metricNames env combo.1)
    [s0] b kvs with hupd
  have hufst : updates.map Prod.fst = keys ++ ["seed", "time"]
      ++ (if b then ["train_loss", "val_loss"] else []) ++ metricColNames mnames := by
    rw [hupd, comboUpdates_one_seed_fst, hkfst, hc5]
  have hperm : (keys ++ specialNames b ++ metricColNames mnames).Perm
      (updates.map Prod.fst) := by
    rw [hufst]
    unfold specialNames
    simp only [List.append_assoc]
    exact List.Perm.append_left keys (List.Perm.append_right _ (List.Perm.swap _ _ _))
  have hbase_nodup := nodup_base_mcols h6 h7 h8 h9
  have hndu : (updates.map Prod.fst).Nodup := hperm.nodup hbase_nodup
  have hmem_upd : ∀ k, k ∈ updates.map Prod.fst ↔
      k ∈ keys ++ specialNames b ++ metricColNames mnames :=
    fun k => (hperm.mem_iff).symm
  have hcols_sub : ∀ k ∈ cols.map Prod.fst, k ∈ updates.map Prod.fst := by
    intro k hk
    rw [hmem_upd]
    rcases hshape with ⟨_, hA⟩ | hB
    · rw [hA] at hk
      exact List.mem_append.mpr (Or.inl hk)
    · rw [hB] at hk
      exact hk
  have hnames : (applyUpdates cols updates).map Prod.fst =
      keys ++ specialNames b ++ metricColNames mnames := by
    rw [applyUpdates_names updates cols hndu]
    rcases hshape with ⟨hj0, hA⟩ | hB
    · rw [hufst, List.filter_append, List.filter_append, List.filter_append]
      have hin_base : ∀ k ∈ keys ++ ["seed", "time"]
          ++ (if b then ["train_loss", "val_loss"] else []), k ∈ cols.map Prod.fst := by
        rw [hA]
        intro k hk
        rw [List.mem_append] at hk ⊢
        rcases hk with hk | hk
        · rw [List.mem_append] at hk
          rcases hk with hk | hk
          · exact Or.inl hk
          · refine Or.inr ?_
            rcases List.mem_cons.mp hk with h | h
            · exact h ▸ mem_specialNames_seed b
            · simp at h
              exact h ▸ mem_specialNames_time b
        · refine Or.inr ?_
          cases b with
          | false => simp at hk
          | true =>
            simp [specialNames]
            simp at hk
            tauto
      have hf1 : ∀ (l : List String), (∀ k ∈ l, k ∈ cols.map Prod.fst) →
          l.filter (fun k => (pyLookup cols k).isNone) = [] := by
        intro l hl
        apply List.filter_eq_nil_iff.mpr
        intro k hk hne
        rw [Option.isNone_iff_eq_none] at hne
        exact ((pyLookup_eq_none_iff cols k).mp hne) (hl k hk)
      rw [hf1 keys (fun k hk => hin_base k (by simp [hk])),
        hf1 ["seed", "time"] (fun k hk => hin_base k (by
          rw [List.mem_append, List.mem_append]
          exact Or.inl (Or.inr hk))),
        hf1 (if b then ["train_loss", "val_loss"] else []) (fun k hk => hin_base k (by
          rw [List.mem_append]
          exact Or.inr hk))]
      have hf2 : (metricColNames mnames).filter (fun k => (pyLookup cols k).isNone)
          = metricColNames mnames := by
        apply List.filter_eq_self.mpr
        intro k hk
        rw [Option.isNone_iff_eq_none, pyLookup_eq_none_iff, hA]
        exact h9 k hk
      rw [hf2, hA]
      simp
    · have hf : (updates.map Prod.fst).filter (fun k => (pyLookup cols k).isNone) = [] := by
        apply List.filter_eq_nil_iff.mpr
        intro k hk hne
        rw [Option.isNone_iff_eq_none] at hne
        refine (pyLookup_eq_none_iff cols k).mp hne ?_
        rw [hB, ← hmem_upd]
        exact hk
      rw [hf, hB, List.append_nil]
  have hlens : ∀ k l, pyLookup (applyUpdates cols updates) k = some l →
      l.length = j + 1 := by
    intro k l hkl
    rw [applyUpdates_lookup updates cols hndu k] at hkl
    cases hu : pyLookup updates k with
    | none =>
      rw [hu] at hkl
      exfalso
      have hkc : k ∈ cols.map Prod.fst := mem_of_pyLookup_some hkl
      have hks : (pyLookup updates k).isSome := pyLookup_isSome_of_mem (hcols_sub k hkc)
      rw [hu] at hks
      simp at hks
    | some v =>
      rw [hu] at hkl
      cases hck : pyLookup cols k with
      | some l0 =>
        rw [hck] at hkl
        cases hkl
        simp [hlen k l0 hck]
      | none =>
        rw [hck] at hkl
        cases hkl
        have hkin : k ∈ updates.map Prod.fst := mem_of_pyLookup_some hu
        rcases hshape with ⟨hj0, hA⟩ | hB
        · simp [hj0]
        · exfalso
          have hmemc : k ∈ cols.map Prod.fst := by
            rw [hB, ← hmem_upd]
            exact hkin
          have hs := pyLookup_isSome_of_mem hmemc
          rw [hck] at hs
          simp at hs
  exact ⟨applyUpdates cols updates, heval, hnames, hlens⟩

theorem pyLookup_map_const {α : Type} (ks : List String) (v : α) (k : String)
    (l : α) (h : pyLookup (ks.map (fun k => (k, v))) k = some l) : l = v := by
  induction ks with
  | nil => cases h
  | cons k0 rest ih =>
    rw [List.map_cons] at h
    by_cases h0 : k0 = k
    · simp [pyLookup, h0] at h
      exact h.symm
    · rw [pyLookup, if_neg h0] at h
      exact ih h

theorem collect_fold_one_seed {V : Type} (env : HarnessEnv V) (keys : List String)
    (s0 : V) (b : Bool) (mnames : List String)
    (combos : List (PyDict V × PyDict V))
    (hc1 : ∀ c ∈ combos, (pyLookup c.1 "criterion").isSome)
    (hc2 : ∀ c ∈ combos, (pyLookup c.1 "batch_size").isSome)
    (hc3 : ∀ c ∈ combos, (pyLookup c.2 "model_class").isSome)
    (hc4 : ∀ c ∈ combos, ∀ k ∈ keys, (pyLookup (dmerge c.1 c.2) k).isSome)
    (hc5 : ∀ c ∈ combos, metricNames env c.1 = mnames)
    (h6 : keys.Nodup)
    (h7 : ∀ k ∈ keys, k ∉ specialNames b)
    (h8 : (metricColNames mnames).Nodup)
    (h9 : ∀ k ∈ metricColNames mnames, k ∉ keys ++ specialNames b)
    (cols : Cols V) (run_idx j : Nat)
    (hshape : (j = 0 ∧ cols.map Prod.fst = keys ++ specialNames b) ∨
      cols.map Prod.fst = keys ++ specialNames b ++ metricColNames mnames)
    (hlen : ∀ k l, pyLookup cols k = some l → l.length = j) :
    ∃ cols' run',
      combos.foldlM (processCombo env keys (some [s0]) b) (cols, run_idx)
        = Except.ok (cols', run') ∧
      (cols'.map Prod.fst = keys ++ specialNames b ++ metricColNames mnames ∨
        (combos = [] ∧ cols' = cols)) ∧
      (∀ k l, pyLookup cols' k = some l → l.length = j + combos.length) := by
  induction combos generalizing cols run_idx j with
  | nil => exact ⟨cols, run_idx, rfl, Or.inr ⟨rfl, rfl⟩, by simpa using hlen⟩
  | cons combo rest ih =>
    obtain ⟨cols1, heval, hnames1, hlen1⟩ :=
      processCombo_one_seed_step env keys s0 b mnames cols run_idx j combo
        (hc1 combo (List.mem_cons_self _ _)) (hc2 combo (List.mem_cons_self _ _))
        (hc3 combo (List.mem_cons_self _ _)) (hc4 combo (List.mem_cons_self _ _))
        (hc5 combo (List.mem_cons_self _ _)) h6 h7 h8 h9 hshape hlen
    obtain ⟨cols', run', hrec, hshape', hlen'⟩ :=
      ih (fun c hc => hc1 c (List.mem_cons_of_mem _ hc))
        (fun c hc => hc2 c (List.mem_cons_of_mem _ hc))
        (fun c hc => hc3 c (List.mem_cons_of_mem _ hc))
        (fun c hc => hc4 c (List.mem_cons_of_mem _ hc))
        (fun c hc => hc5 c (List.mem_cons_of_mem _ hc))
        cols1 (run_idx + 1) (j + 1) (Or.inr hnames1) hlen1
    have hfold : (combo :: rest).foldlM (processCombo env keys (some [s0]) b)
        (cols, run_idx) = Except.ok (cols', run') := by
      rw [List.foldlM_cons, heval]
      simpa [Bind.bind, Except.bind] using hrec
    refine ⟨cols', run', hfold, ?_, ?_⟩
    · rcases hshape' with hn | ⟨hrest, hcc⟩
      · exact Or.inl hn
      · subst hcc
        exact Or.inl hnames1
    · intro k l hkl
      have := hlen' k l hkl
      rw [List.length_cons]
      omega

/-- C8: with a single seed and column names that do not clash — the keys to
save are distinct and avoid `'time'`/`'seed'` (and the loss columns when
saved), the derived metric column names are distinct and avoid all of the
above — and all combinations well-formed with the same metric list,
`collect_results` succeeds and returns (and serializes) a DataFrame whose
columns are exactly `hyperparameters_key_to_save`, then `'time'`, `'seed'`,
the two loss columns when `save_loss_values`, and the `_train`/`_val` column
pair per metric (present once at least one combination ran), every column
holding exactly one row per iterated combination. -/
theorem collect_results_one_seed_table {V : Type} (env : HarnessEnv V)
    (combos : List (PyDict V × PyDict V)) (keys : List String) (s0 : V)
    (b : Bool) (mnames : List String)
    (hc1 : ∀ c ∈ combos, (pyLookup c.1 "criterion").isSome)
    (hc2 : ∀ c ∈ combos, (pyLookup c.1 "batch_size").isSome)
    (hc3 : ∀ c ∈ combos, (pyLookup c.2 "model_class").isSome)
    (hc4 : ∀ c ∈ combos, ∀ k ∈ keys, (pyLookup (dmerge c.1 c.2) k).isSome)
    (hc5 : ∀ c ∈ combos, metricNames env c.1 = mnames)
    (h6 : keys.Nodup)
    (h7 : ∀ k ∈ keys, k ∉ specialNames b)
    (h8 : (metricColNames mnames).Nodup)
    (h9 : ∀ k ∈ metricColNames mnames, k ∉ keys ++ specialNames b) :
    ∃ df : DataFrame V,
      collect_results env combos keys (some [s0]) b = Except.ok (df, df) ∧
      df.cols.map Prod.fst =
        (keys ++ specialNames b) ++ (if combos.isEmpty then [] else metricColNames mnames) ∧
      ∀ p ∈ df.cols, p.2.length = combos.length := by
  have hinit := initCols_eq (V := V) keys b h6 h7
  have hinit_fst : (initCols keys b : Cols V).map Prod.fst = keys ++ specialNames b := by
    rw [hinit, List.map_map]
    exact List.map_id _
  have hlen0 : ∀ k l, pyLookup (initCols keys b : Cols V) k = some l → l.length = 0 := by
    intro k l hkl
    rw [hinit] at hkl
    rw [pyLookup_map_const _ _ _ _ hkl]
    rfl
  obtain ⟨cols', run', hfold, hshape', hlen'⟩ :=
    collect_fold_one_seed env keys s0 b mnames combos hc1 hc2 hc3 hc4 hc5 h6 h7 h8 h9
      (initCols keys b) 0 0 (Or.inl ⟨rfl, hinit_fst⟩) hlen0
  have hnames' : cols'.map Prod.fst =
      (keys ++ specialNames b) ++ (if combos.isEmpty then [] else metricColNames mnames) := by
    cases hcombos : combos with
    | nil =>
      subst hcombos
      have hcols : cols' = initCols keys b := by
        simp only [List.foldlM, pure, Except.pure] at hfold
        cases hfold
        rfl
      rw [hcols, hinit_fst]
      simp
    | cons c r =>
      subst hcombos
      rcases hshape' with hn | ⟨hempty, _⟩
      · rw [hn]
        simp
      · cases hempty
  have hnodup' : (cols'.map Prod.fst).Nodup := by
    rw [hnames']
    cases hcombos : combos.isEmpty
    · simpa using nodup_base_mcols h6 h7 h8 h9
    · simpa using (nodup_base_mcols h6 h7 h8 h9).of_append_left
  have hmemlen : ∀ p ∈ cols', p.2.length = combos.length := by
    intro p hp
    have := hlen' p.1 p.2 (pyLookup_of_mem_nodup hnodup' hp)
    simpa using this
  have hsame : sameLengths cols' = true := sameLengths_of_all cols' combos.length hmemlen
  have hcc : collect_columns env combos keys (some [s0]) b = Except.ok cols' := by
    unfold collect_columns
    rw [hfold]
    rfl
  have hmk : mkDataFrame cols' = Except.ok { cols := cols' } := by
    unfold mkDataFrame
    rw [if_pos hsame]
  refine ⟨{ cols := cols' }, ?_, hnames', hmemlen⟩
  unfold collect_results
  simp [hcc, hmk, Bind.bind, Except.bind]

/-- C8 witness: two combinations carrying metrics `f1` and `acc`, one seed,
losses saved, key `lr` saved. -/
theorem collect_results_one_seed_table_witness :
    ∃ df : DataFrame Int,
      collect_results metricEnv [(thMetrics, mhSample), (thMetrics, mhSample)]
        ["lr"] (some [11]) true = Except.ok (df, df) ∧
      df.cols.map Prod.fst =
        (["lr"] ++ specialNames true)
          ++ (if ([(thMetrics, mhSample), (thMetrics, mhSample)] :
                List (PyDict Int × PyDict Int)).isEmpty then []
              else metricColNames ["f1", "acc"]) ∧
      ∀ p ∈ df.cols, p.2.length =
        ([(thMetrics, mhSample), (thMetrics, mhSample)] :
          List (PyDict Int × PyDict Int)).length :=
  collect_results_one_seed_table metricEnv _ ["lr"] 11 true ["f1", "acc"]
    (by decide) (by decide) (by decide) (by decide) (by decide)
    (by decide) (by decide) (by decide) (by decide)

end DrTorch
